import Mathlib

/-!
Verification of the mcp-command-server core: shallow embedding of the
security pipeline (sanitizer, validator, risk assessment, confirmation),
the history logger, the audit trail, the command parser and the terminal
executor, together with proofs of the specified properties.

Machine-level conventions of the embedding:
* Python functions that raise become Lean functions returning `Except String`.
* Filesystem-dependent path canonicalisation (`pathlib.Path.resolve`) is
  passed in as an explicit `resolve : String → String` parameter; the
  concrete function `posixResolve` below implements its purely lexical
  behaviour (absolute paths, no symlinks, `.` and `..` collapsed).
-/

namespace MCPCommandServer

/-- Holds when `pat` is a leading segment of `s`. -/
def startsWithSeq : List Char → List Char → Bool
  | [], _ => true
  | _ :: _, [] => false
  | p :: ps, c :: cs => p = c && startsWithSeq ps cs

/-- Holds when `pat` occurs as a contiguous substring of `s`. -/
def occursIn (pat : List Char) : List Char → Bool
  | [] => pat.isEmpty
  | c :: cs => startsWithSeq pat (c :: cs) || occursIn pat cs

/-- The literal alternatives of `CommandSanitizer.DANGEROUS_PATTERNS`
(`sanitizer.py`): the regex alternation reduces to substring search for
these literals (the variable-expansion alternative is subsumed by the
dollar-brace literal, which also appears on its own). -/
def DANGEROUS_SUBSTRINGS : List String :=
  [";", "&", "|", "`", "$(", "$\x7b", ">>", ">", "<", "[[", "]]"]

/-- Embedding of `re.search` of the joined `DANGEROUS_PATTERNS` over a string: true iff
some dangerous literal occurs as a substring. -/
def containsDangerous (s : String) : Bool :=
  DANGEROUS_SUBSTRINGS.any (fun p => occursIn p.toList s.toList)

/-- The eight metacharacter patterns named by the specification's
sanitisation property. -/
def CLAIM_METACHARS : List String :=
  [";", "&", "|", "`", "$(", "$\x7b", ">", "<"]

/-- A string contains one of the specification's metacharacters. -/
def containsMetachar (s : String) : Bool :=
  CLAIM_METACHARS.any (fun p => occursIn p.toList s.toList)

/-- Python `re.match("^[<class>]+$", s)`: the `$` anchor also matches just
before a single trailing newline, so the match succeeds iff the string,
with one trailing newline removed if present, is nonempty and each of its
characters is in the class. -/
def regexFullMatch (isAllowed : Char → Bool) (s : String) : Bool :=
  let chars := s.toList
  let body := if chars.getLast? = some '\n' then chars.dropLast else chars
  !body.isEmpty && body.all isAllowed

/-- Character class `[a-zA-Z0-9_-]` used for command tokens. -/
def commandChar (c : Char) : Bool :=
  c.isAlphanum || c = '_' || c = '-'

/-- Character class `[a-zA-Z0-9_\-\.\/]` used for argument tokens. -/
def argChar (c : Char) : Bool :=
  c.isAlphanum || c = '_' || c = '-' || c = '.' || c = '/'

/-- Embedding of `CommandSanitizer.sanitize_command` (`sanitizer.py`): reject on a
dangerous pattern, then require the whole token to match the command
character class; otherwise return the command unchanged. -/
def sanitize_command (command : String) : Except String String :=
  if containsDangerous command then
    Except.error "Command contains disallowed characters"
  else if !regexFullMatch commandChar command then
    Except.error "Command contains disallowed characters"
  else
    Except.ok command

/-- Embedding of `CommandSanitizer.sanitize_path` (`sanitizer.py`): resolve the path
first, then run the dangerous-pattern check on the resolved string and
return the resolved string. -/
def sanitize_path (resolve : String → String) (path : String) :
    Except String String :=
  let resolved_path := resolve path
  if containsDangerous resolved_path then
    Except.error "Path contains disallowed characters"
  else
    Except.ok resolved_path

/-- Embedding of `CommandSanitizer.sanitize_arguments` (`sanitizer.py`): check each
argument in order, failing the whole batch at the first argument that
contains a dangerous pattern or falls outside the argument character
class; each accepted argument is appended unchanged. -/
def sanitize_arguments : List String → Except String (List String)
  | [] => Except.ok []
  | arg :: rest =>
    if containsDangerous arg then
      Except.error "Arguments contain disallowed characters"
    else if !regexFullMatch argChar arg then
      Except.error "Arguments contain disallowed characters"
    else
      match sanitize_arguments rest with
      | Except.error e => Except.error e
      | Except.ok rs => Except.ok (arg :: rs)

/-- Split a character sequence at every occurrence of `sep`. -/
def splitOnChar (sep : Char) : List Char → List (List Char)
  | [] => [[]]
  | c :: cs =>
    if c = sep then [] :: splitOnChar sep cs
    else
      match splitOnChar sep cs with
      | [] => [[c]]
      | r :: rs => (c :: r) :: rs

/-- One step of lexical path resolution: drop empty and `.` components,
let `..` pop the last accepted component (a no-op at the root). -/
def resolveComponents (acc : List (List Char)) :
    List (List Char) → List (List Char)
  | [] => acc.reverse
  | c :: rest =>
    if c = [] || c = ['.'] then resolveComponents acc rest
    else if c = ['.', '.'] then resolveComponents (acc.drop 1) rest
    else resolveComponents (c :: acc) rest

/-- Join resolved path components back into an absolute path. -/
def joinAbsolute : List (List Char) → List Char
  | [] => []
  | c :: rest => '/' :: (c ++ joinAbsolute rest)

/-- Embedding of `pathlib.Path.resolve` on a POSIX filesystem containing no symbolic
links: make the path absolute against `cwd` and collapse `.` and `..`
segments lexically. -/
def posixResolve (cwd : String) (p : String) : String :=
  let s := if p.toList.head? = some '/' then p.toList
           else cwd.toList ++ '/' :: p.toList
  let comps := resolveComponents [] (splitOnChar '/' s)
  if comps = [] then "/" else String.mk (joinAbsolute comps)

/-- Value of the allowed-commands policy map for one command
(`validator.py`): permitted arguments and permitted path roots. -/
structure PolicyEntry where
  args : List String
  paths : List String

/-- Embedding of `CommandValidator.validate_command` (`validator.py`): reject commands
outside the token character class, commands absent from the policy map,
arguments outside the command's allowed-argument list, and paths whose
canonical form is not under one of the command's allowed roots.  The
policy dictionary is embedded as an association list; `resolve` embeds
`Path(path).resolve()` and `isRelTo` embeds `Path.is_relative_to`. -/
def validate_command (resolve : String → String)
    (isRelTo : String → String → Bool)
    (allowed_commands : List (String × PolicyEntry))
    (command : String) (args : List String) (path : String) :
    Except String Bool :=
  if !regexFullMatch commandChar command then
    Except.error "Command contains invalid characters"
  else
    match allowed_commands.lookup command with
    | none => Except.error "Command is not allowed"
    | some entry =>
      match args.find? (fun a => !entry.args.contains a) with
      | some _ => Except.error "Argument is not allowed for command"
      | none =>
        let path_obj := resolve path
        if entry.paths.any (fun allowed_path => isRelTo path_obj allowed_path) then
          Except.ok true
        else
          Except.error "Path is not allowed for command"

/-- Embedding of the risk helper of `UserConfirmationHandler` (`confirmation.py`): default
MEDIUM, read commands LOW, destructive commands or force flags HIGH; the
read-command branch is tested first. -/
def assess_risk (command : String) (args : List String) (path : String) :
    String :=
  if (["ls", "cat", "head", "tail"] : List String).contains command then
    "LOW"
  else if (["rm", "mv"] : List String).contains command
      || args.contains "-f" || args.contains "--force" then
    "HIGH"
  else
    "MEDIUM"

/-- Embedding of `CommandRecord` (`command_logger.py`): one history entry.  The
`datetime` timestamp is embedded as its ISO string. -/
structure CommandRecord where
  timestamp : String
  command : String
  args : List String
  path : String
  user : String
  status : String
  risk_level : String
  duration : Option Float := none
  error : Option String := none

/-- Embedding of `CommandLogger.SENSITIVE_PARAMS` (`command_logger.py`). -/
def SENSITIVE_PARAMS : List String :=
  ["-p", "--password", "PASSWORD", "TOKEN", "KEY", "SECRET"]

/-- The argument loop of `CommandLogger._mask_sensitive_data`
(`command_logger.py`), with the `skip_next` flag made explicit: a token
reached with the flag set is replaced by the mask marker, a sensitive
parameter is kept and sets the flag, anything else is kept. -/
def maskArgs (skipNext : Bool) : List String → List String
  | [] => []
  | arg :: rest =>
    if skipNext then "[MASKED]" :: maskArgs false rest
    else if SENSITIVE_PARAMS.contains arg then arg :: maskArgs true rest
    else arg :: maskArgs false rest

/-- Embedding of the masking helper of `CommandLogger` (`command_logger.py`): rebuild
the record with masked arguments and every other field copied. -/
def mask_sensitive_data (record : CommandRecord) : CommandRecord :=
  { timestamp := record.timestamp
    command := record.command
    args := maskArgs false record.args
    path := record.path
    user := record.user
    status := record.status
    risk_level := record.risk_level
    duration := record.duration
    error := record.error }

/-- Per-position value of the `skip_next` flag of
`_mask_sensitive_data`'s loop, as the loop reaches each token.
Position `i` is in value position (and gets masked) exactly when this
list holds `true` at `i`. -/
def maskStates (skipNext : Bool) : List String → List Bool
  | [] => []
  | arg :: rest =>
    skipNext ::
      (if skipNext then maskStates false rest
       else if SENSITIVE_PARAMS.contains arg then maskStates true rest
       else maskStates false rest)

/-- Python's `line.strip()` is falsy exactly when every character of the
line is whitespace. -/
def isBlankLine (s : String) : Bool :=
  s.toList.all (fun c => c.isWhitespace)

/-- The loop of `CommandLogger.get_command_history` (`command_logger.py`)
over the lines of the log file: blank lines are skipped, each non-blank
line is deserialised (a failure propagates), and the loop stops as soon
as the number of collected records reaches `limit` — the check runs
after each line is processed, so the comparison is against the count
including the line just appended.  `n` is the number of records already
collected. -/
def historyLoop (parseLine : String → Except String CommandRecord)
    (limit : Nat) : List String → Nat → Except String (List CommandRecord)
  | [], _ => Except.ok []
  | line :: rest, n =>
    if isBlankLine line then
      if limit ≤ n then Except.ok []
      else historyLoop parseLine limit rest n
    else
      match parseLine line with
      | Except.error e => Except.error e
      | Except.ok r =>
        if limit ≤ n + 1 then Except.ok [r]
        else
          match historyLoop parseLine limit rest (n + 1) with
          | Except.error e => Except.error e
          | Except.ok rs => Except.ok (r :: rs)

/-- Embedding of `CommandLogger.get_command_history` (`command_logger.py`): a missing
log file yields the empty list; otherwise the stored lines are read in
file order through `historyLoop`.  The file is embedded as
`Option (List String)` (`none` = the log file does not exist) and JSON
deserialisation of one line as `parseLine`. -/
def get_command_history (parseLine : String → Except String CommandRecord) :
    Option (List String) → Nat → Except String (List CommandRecord)
  | none, _ => Except.ok []
  | some lines, limit => historyLoop parseLine limit lines 0

/-- The non-blank lines of a stored log in file order, each replaced by
its successful deserialisation. -/
def wellFormedEntries (parseLine : String → Except String CommandRecord)
    (lines : List String) : List CommandRecord :=
  lines.filterMap
    (fun l => if isBlankLine l then none else (parseLine l).toOption)

/-- A fixed well-formed history record used to exercise the history and
masking operations at concrete inputs. -/
def sampleRecord : CommandRecord :=
  { timestamp := "2024-01-01T00:00:00", command := "ls", args := [],
    path := "/", user := "u", status := "success", risk_level := "LOW" }

/-- Embedding of `ParsedCommand` (`parser.py`). -/
structure ParsedCommand where
  command : String
  args : List String
  path : String

/-- Outcome of `CommandParser.parse`: a `CommandParseError`, a
`ValidationError`, or a parsed command. -/
inductive ParseResult where
  | parseError (msg : String)
  | validationError (msg : String)
  | ok (pc : ParsedCommand)

/-- Embedding of `CommandParser.parse` (`parser.py`): reject the empty string and
tokenisation failures as parse errors; require at least two tokens; the
first token is the command, the last token is the path, the tokens in
between are the arguments; normalise the path and run the security
validator, whose failure is re-raised as a validation error.  The
quote-aware `shlex.split` tokenisation is embedded as the
`tokenized` argument (`Except.error` = `shlex` raised `ValueError`). -/
def parse (resolve : String → String) (isRelTo : String → String → Bool)
    (allowed_commands : List (String × PolicyEntry))
    (command_string : String) (tokenized : Except String (List String)) :
    ParseResult :=
  if command_string = "" then
    ParseResult.parseError "Invalid command format: empty command"
  else
    match tokenized with
    | Except.error e => ParseResult.parseError e
    | Except.ok parts =>
      if parts.length < 2 then
        ParseResult.parseError "Invalid command format: must include command and path"
      else
        let command := parts.head!
        let path := parts.getLast!
        let args := (parts.drop 1).dropLast
        let normalized_path := resolve path
        match validate_command resolve isRelTo allowed_commands
            command args normalized_path with
        | Except.error e => ParseResult.validationError e
        | Except.ok _ => ParseResult.ok ⟨command, args, normalized_path⟩

/-- One audit record as written by `AuditLogger.log_command_execution`
(`audit.py`); the wall-clock timestamp taken inside the call is not part
of the embedding. -/
structure AuditEvent where
  command : String
  arguments : List String
  path : String
  status : String
  user : String
  error : Option String := none

/-- Embedding of `AuditLogger.log_command_execution` (`audit.py`): append exactly one
event to the audit log, with the error field present only when a
message is supplied. -/
def log_command_execution (log : List AuditEvent) (command : String)
    (arguments : List String) (path : String) (status : String)
    (user : String) (error_message : Option String) : List AuditEvent :=
  log ++ [{ command := command, arguments := arguments, path := path,
            status := status, user := user, error := error_message }]

/-- The `execute_command` tool of `CommandServer` (`server.py`):
sanitize the command, arguments and path (each rebinding its variable),
validate against the policy, require confirmation, execute, and log a
success event; any failure along the way is caught by the handler,
which logs exactly one failure event with the current values of the
variables and re-raises.  The confirmation callback's verdict and the
subprocess outcome are embedded as the `confirmed` and `execRes`
arguments; the audit file is embedded as the event list it contains. -/
def execute_command (resolve : String → String)
    (isRelTo : String → String → Bool)
    (allowed_commands : List (String × PolicyEntry)) (user : String)
    (confirmed : Bool) (execRes : Except String String)
    (command : String) (args : List String) (path : String)
    (log : List AuditEvent) : Except String String × List AuditEvent :=
  match sanitize_command command with
  | Except.error e =>
    (Except.error e, log_command_execution log command args path "failed" user (some e))
  | Except.ok command =>
    match sanitize_arguments args with
    | Except.error e =>
      (Except.error e, log_command_execution log command args path "failed" user (some e))
    | Except.ok args =>
      match sanitize_path resolve path with
      | Except.error e =>
        (Except.error e, log_command_execution log command args path "failed" user (some e))
      | Except.ok path =>
        match validate_command resolve isRelTo allowed_commands command args path with
        | Except.error e =>
          (Except.error e, log_command_execution log command args path "failed" user (some e))
        | Except.ok _ =>
          if !confirmed then
            let e := "Command execution not confirmed by user"
            (Except.error e, log_command_execution log command args path "failed" user (some e))
          else
            match execRes with
            | Except.error e =>
              (Except.error e, log_command_execution log command args path "failed" user (some e))
            | Except.ok result =>
              (Except.ok result, log_command_execution log command args path "success" user none)

/-- Embedding of `CommandResult` (`terminal_interface.py`). -/
structure CommandResult where
  stdout : String
  stderr : String
  returncode : Int
  command : String

/-- Errors raised by `TerminalInterface.execute`
(`terminal_interface.py`): `TerminalError` on a non-zero exit and
`CommandTimeoutError` when the deadline fires; each carries the command
whose execution failed. -/
inductive ExecError where
  | terminalError (command : String) (returncode : Int) (stderr : String)
  | commandTimeout (command : String)

/-- The process-control signals `TerminalInterface.execute` sends on the
timeout path, in order. -/
inductive TermAction where
  | terminate
  | sleepGrace
  | kill

/-- The outcome of racing `process.communicate()` against the
`asyncio.wait_for` deadline in `TerminalInterface.execute`: either the
child finished first (with its output and return code) or the deadline
fired, in which case `aliveAfterGrace` records whether the child is
still running when the grace sleep ends (`process.returncode is None`). -/
inductive RaceOutcome where
  | completed (stdout : String) (stderr : String) (returncode : Int)
  | timedOut (aliveAfterGrace : Bool)

/-- Embedding of `TerminalInterface.execute` (`terminal_interface.py`), from the point
where the subprocess exists, abstracting process creation and stdin
plumbing: on completion, a non-zero return code raises `TerminalError`
and a zero return code yields the `CommandResult`; on deadline expiry the
code terminates the process, sleeps the fixed 0.1-second grace interval,
kills the process if it is still alive, and raises
`CommandTimeoutError`.  The second component records the signals sent. -/
def execute (command : String) (race : RaceOutcome) :
    Except ExecError CommandResult × List TermAction :=
  match race with
  | RaceOutcome.completed stdout stderr returncode =>
    if returncode ≠ 0 then
      (Except.error (ExecError.terminalError command returncode stderr), [])
    else
      (Except.ok { stdout := stdout, stderr := stderr,
                   returncode := returncode, command := command }, [])
  | RaceOutcome.timedOut aliveAfterGrace =>
    (Except.error (ExecError.commandTimeout command),
      [TermAction.terminate, TermAction.sleepGrace]
        ++ (if aliveAfterGrace then [TermAction.kill] else []))

/-- C1: for every command string not present as a key of the policy map,
`validate_command` fails with a `ValidationError`, for all argument lists
and all paths: a command absent from the policy is never accepted. -/
theorem c1_unknown_command_always_denied
    (resolve : String → String) (isRelTo : String → String → Bool)
    (allowed_commands : List (String × PolicyEntry))
    (command : String) (args : List String) (path : String)
    (h : allowed_commands.lookup command = none) :
    ∃ e, validate_command resolve isRelTo allowed_commands command args path
      = Except.error e := by
  unfold validate_command
  cases hre : regexFullMatch commandChar command with
  | false => exact ⟨"Command contains invalid characters", by simp [hre]⟩
  | true => exact ⟨"Command is not allowed", by simp [hre, h]⟩

/-- Witness for C1 at a concrete policy, command, argument list and path. -/
theorem c1_witness :
    ∃ e, validate_command id (fun _ _ => true)
      [("ls", ⟨["-l"], ["/"]⟩)] "rm" [] "/" = Except.error e :=
  c1_unknown_command_always_denied id (fun _ _ => true)
    [("ls", ⟨["-l"], ["/"]⟩)] "rm" [] "/" (by rfl)

/-- C3 fails as stated: the claim requires HIGH whenever the argument
list contains `-f`, but a read command keeps LOW: at command `ls` with
arguments `["-f"]` the code returns LOW, not HIGH. -/
theorem c3_counterexample :
    (["-f"] : List String).contains "-f" = true ∧
    assess_risk "ls" ["-f"] "/" = "LOW" ∧ ("LOW" : String) ≠ "HIGH" :=
  ⟨by rfl, by rfl, by decide⟩

/-- C3 amended: risk is assessed by ordered cases — LOW exactly when the
command is one of `ls, cat, head, tail`; otherwise HIGH exactly when the
command is `rm` or `mv` or the arguments contain `-f` or `--force`;
MEDIUM in every other case. -/
theorem c3_amended_risk_classification
    (command : String) (args : List String) (path : String) :
    (assess_risk command args path = "LOW" ↔
      (["ls", "cat", "head", "tail"] : List String).contains command = true) ∧
    (assess_risk command args path = "HIGH" ↔
      ((["ls", "cat", "head", "tail"] : List String).contains command = false ∧
       ((["rm", "mv"] : List String).contains command
         || args.contains "-f" || args.contains "--force") = true)) ∧
    (assess_risk command args path = "MEDIUM" ↔
      ((["ls", "cat", "head", "tail"] : List String).contains command = false ∧
       ((["rm", "mv"] : List String).contains command
         || args.contains "-f" || args.contains "--force") = false)) := by
  unfold assess_risk
  cases h1 : (["ls", "cat", "head", "tail"] : List String).contains command <;>
    cases h2 : ((["rm", "mv"] : List String).contains command
      || args.contains "-f" || args.contains "--force") <;>
    simp [h1, h2]

/-- Witness for the amended C3 at the specification's sample inputs. -/
theorem c3_amended_witness :
    assess_risk "rm" ["-rf"] "/" = "HIGH" ∧
    assess_risk "npm" ["install"] "/" = "MEDIUM" :=
  ⟨(c3_amended_risk_classification "rm" ["-rf"] "/").2.1.mpr (by decide),
   (c3_amended_risk_classification "npm" ["install"] "/").2.2.mpr (by decide)⟩

/-- C4: every invocation of the `execute_command` operation appends
exactly one audit event to the audit log before control returns, whether
it returns normally or fails at sanitization, authorization,
confirmation or execution. -/
theorem c4_exactly_one_audit_event
    (resolve : String → String) (isRelTo : String → String → Bool)
    (allowed_commands : List (String × PolicyEntry)) (user : String)
    (confirmed : Bool) (execRes : Except String String)
    (command : String) (args : List String) (path : String)
    (log : List AuditEvent) :
    ((execute_command resolve isRelTo allowed_commands user confirmed
        execRes command args path log).2).length = log.length + 1 := by
  unfold execute_command log_command_execution
  repeat' split
  all_goals simp

/-- C5: whenever the deadline expires before the child process completes,
`execute` raises `CommandTimeoutError` and never returns a
`CommandResult`, after sending a graceful termination signal, sleeping
the fixed grace interval, and sending a forceful kill exactly when the
process is still alive. -/
theorem c5_timeout_raises_after_escalation
    (command : String) (aliveAfterGrace : Bool) :
    (execute command (RaceOutcome.timedOut aliveAfterGrace)).1 =
      Except.error (ExecError.commandTimeout command) ∧
    (execute command (RaceOutcome.timedOut aliveAfterGrace)).2 =
      [TermAction.terminate, TermAction.sleepGrace]
        ++ (if aliveAfterGrace then [TermAction.kill] else []) :=
  ⟨rfl, rfl⟩

/-- C9: whenever `sanitize_command` or `sanitize_arguments` succeeds, it
returns its input unchanged. -/
theorem c9_sanitizers_return_input_unchanged :
    (∀ (command result : String),
      sanitize_command command = Except.ok result → result = command) ∧
    (∀ (args result : List String),
      sanitize_arguments args = Except.ok result → result = args) := by
  constructor
  · intro c r h
    unfold sanitize_command at h
    split at h
    · exact Except.noConfusion h
    · split at h
      · exact Except.noConfusion h
      · cases h; rfl
  · intro args
    induction args with
    | nil => intro r h; cases h; rfl
    | cons a rest ih =>
      intro r h
      unfold sanitize_arguments at h
      split at h
      · exact Except.noConfusion h
      · split at h
        · exact Except.noConfusion h
        · cases hrec : sanitize_arguments rest with
          | error e => rw [hrec] at h; exact Except.noConfusion h
          | ok rs => rw [hrec] at h; cases h; rw [ih rs hrec]

/-- Witness for C9 at concrete accepted inputs. -/
theorem c9_witness :
    ("ls" : String) = "ls" ∧ (["-l", "-a"] : List String) = ["-l", "-a"] :=
  ⟨c9_sanitizers_return_input_unchanged.1 "ls" "ls" (by rfl),
   c9_sanitizers_return_input_unchanged.2 ["-l", "-a"] ["-l", "-a"] (by rfl)⟩

/-- Each of the specification's metacharacter patterns is one of the
sanitizer's dangerous patterns, so a string containing a metacharacter
triggers the dangerous-pattern check. -/
theorem containsDangerous_of_containsMetachar (s : String)
    (h : containsMetachar s = true) : containsDangerous s = true := by
  unfold containsMetachar at h
  unfold containsDangerous
  rw [List.any_eq_true] at h ⊢
  obtain ⟨p, hp, hocc⟩ := h
  fin_cases hp <;> exact ⟨_, by decide, hocc⟩

/-- A dangerous argument anywhere in the list fails the whole batch. -/
theorem sanitize_arguments_error_of_mem (args : List String) (a : String)
    (ha : a ∈ args) (hd : containsDangerous a = true) :
    ∃ e, sanitize_arguments args = Except.error e := by
  induction args with
  | nil => cases ha
  | cons b rest ih =>
    cases hb : containsDangerous b with
    | true =>
      exact ⟨"Arguments contain disallowed characters",
        by unfold sanitize_arguments; simp [hb]⟩
    | false =>
      rcases List.mem_cons.mp ha with rfl | hmem
      · rw [hd] at hb; exact Bool.noConfusion hb
      · obtain ⟨e, he⟩ := ih hmem
        cases hreg : regexFullMatch argChar b with
        | false =>
          exact ⟨"Arguments contain disallowed characters",
            by unfold sanitize_arguments; simp [hb, hreg]⟩
        | true => exact ⟨e, by unfold sanitize_arguments; simp [hb, hreg, he]⟩

/-- C2 fails as stated for `sanitize_path`: the raw path `/a;b/..`
contains the metacharacter `;`, yet canonicalisation collapses the `..`
segment and erases the `;` before the metacharacter check runs, so the
call succeeds instead of raising. -/
theorem c2_counterexample :
    containsMetachar "/a;b/.." = true ∧
    sanitize_path (posixResolve "/") "/a;b/.." = Except.ok "/" :=
  ⟨by rfl, by rfl⟩

/-- C2 amended: every raw input containing one of the metacharacters
`; & | backtick $( $bracket > <` makes `sanitize_command` and
`sanitize_arguments` fail; `sanitize_path` resolves the path first and
applies the metacharacter check to the resolved string, so it fails
whenever the resolved form still contains a metacharacter.  Resolution
may erase metacharacters hidden behind discarded `..` segments, so a
raw path containing a metacharacter can be accepted, as the
counterexample shows. -/
theorem c2_amended_sanitizers_reject_metachars :
    (∀ command : String, containsMetachar command = true →
      ∃ e, sanitize_command command = Except.error e) ∧
    (∀ (args : List String) (a : String), a ∈ args →
      containsMetachar a = true →
      ∃ e, sanitize_arguments args = Except.error e) ∧
    (∀ (resolve : String → String) (path : String),
      containsMetachar (resolve path) = true →
      ∃ e, sanitize_path resolve path = Except.error e) := by
  refine ⟨?_, ?_, ?_⟩
  · intro c h
    exact ⟨"Command contains disallowed characters", by
      unfold sanitize_command
      simp [containsDangerous_of_containsMetachar c h]⟩
  · intro args a ha h
    exact sanitize_arguments_error_of_mem args a ha
      (containsDangerous_of_containsMetachar a h)
  · intro resolve p h
    exact ⟨"Path contains disallowed characters", by
      unfold sanitize_path
      simp [containsDangerous_of_containsMetachar _ h]⟩

/-- Witness for the amended C2 at concrete metacharacter-bearing inputs. -/
theorem c2_amended_witness :
    (∃ e, sanitize_command "a;b" = Except.error e) ∧
    (∃ e, sanitize_arguments ["x", "a&b"] = Except.error e) ∧
    (∃ e, sanitize_path id "/tmp/a|b" = Except.error e) :=
  ⟨c2_amended_sanitizers_reject_metachars.1 "a;b" (by rfl),
   c2_amended_sanitizers_reject_metachars.2.1 ["x", "a&b"] "a&b"
     (by decide) (by rfl),
   c2_amended_sanitizers_reject_metachars.2.2 id "/tmp/a|b" (by rfl)⟩

/-- The mask marker is not itself a sensitive parameter. -/
theorem masked_marker_not_sensitive :
    SENSITIVE_PARAMS.contains "[MASKED]" = false := by rfl

/-- Masking the argument list twice, from any starting state of the
`skip_next` flag, equals masking it once. -/
theorem maskArgs_idem (l : List String) :
    ∀ s : Bool, maskArgs s (maskArgs s l) = maskArgs s l := by
  induction l with
  | nil => intro s; rfl
  | cons a rest ih =>
    intro s
    cases s with
    | true => simp [maskArgs, masked_marker_not_sensitive, ih false]
    | false =>
      by_cases ha : a ∈ SENSITIVE_PARAMS
      · simp [maskArgs, ha, ih true]
      · simp [maskArgs, ha, ih false]

/-- The masked list replaces position `i` with the marker exactly when
the `skip_next` flag is set on reaching `i`, and keeps the original
token otherwise. -/
theorem maskArgs_eq_zipWith (l : List String) :
    ∀ s : Bool,
      maskArgs s l =
        List.zipWith (fun b a => if b then "[MASKED]" else a)
          (maskStates s l) l := by
  induction l with
  | nil => intro s; rfl
  | cons a rest ih =>
    intro s
    cases s with
    | true => simp [maskArgs, maskStates, ih false]
    | false =>
      by_cases ha : a ∈ SENSITIVE_PARAMS
      · simp [maskArgs, maskStates, ha, ih true]
      · simp [maskArgs, maskStates, ha, ih false]

/-- Masking preserves the length of the argument list. -/
theorem maskArgs_length (l : List String) :
    ∀ s : Bool, (maskArgs s l).length = l.length := by
  induction l with
  | nil => intro s; rfl
  | cons a rest ih =>
    intro s
    cases s with
    | true => simp [maskArgs, ih false]
    | false =>
      by_cases ha : a ∈ SENSITIVE_PARAMS
      · simp [maskArgs, ha, ih true]
      · simp [maskArgs, ha, ih false]

/-- A position whose predecessor (if any) is not a sensitive parameter
is returned unchanged by the masking loop, provided the flag is clear
when the loop starts at position 0. -/
theorem maskArgs_get?_preserved (l : List String) :
    ∀ (s : Bool) (i : Nat),
      (i = 0 → s = false) →
      (∀ (j : Nat) (x : String), j + 1 = i → l.get? j = some x →
        SENSITIVE_PARAMS.contains x = false) →
      (maskArgs s l).get? i = l.get? i := by
  induction l with
  | nil => intro s i _ _; rfl
  | cons a rest ih =>
    intro s i h0 hpred
    cases i with
    | zero =>
      have hs : s = false := h0 rfl
      subst hs
      by_cases ha : a ∈ SENSITIVE_PARAMS
      · simp [maskArgs, ha]
      · simp [maskArgs, ha]
    | succ k =>
      have htail : ∀ (j : Nat) (x : String), j + 1 = k →
          rest.get? j = some x → SENSITIVE_PARAMS.contains x = false := by
        intro j x hj hx
        exact hpred (j + 1) x (by omega) (by simpa using hx)
      cases s with
      | true =>
        have hstep : maskArgs true (a :: rest)
            = "[MASKED]" :: maskArgs false rest := rfl
        rw [hstep, List.get?_cons_succ, List.get?_cons_succ]
        exact ih false k (fun _ => rfl) htail
      | false =>
        by_cases ha : a ∈ SENSITIVE_PARAMS
        · have hstep : maskArgs false (a :: rest)
              = a :: maskArgs true rest := by simp [maskArgs, ha]
          rw [hstep, List.get?_cons_succ, List.get?_cons_succ]
          refine ih true k (fun hk => ?_) htail
          subst hk
          have hfalse := hpred 0 a rfl (by simp)
          simp at hfalse
          exact absurd ha hfalse
        · have hstep : maskArgs false (a :: rest)
              = a :: maskArgs false rest := by simp [maskArgs, ha]
          rw [hstep, List.get?_cons_succ, List.get?_cons_succ]
          exact ih false k (fun _ => rfl) htail

/-- C6 fails as stated: a sensitive flag token that itself sits in value
position is masked, not preserved — with arguments `["-p", "-p"]` the
second `-p` is a sensitive flag token yet is replaced by the marker. -/
theorem c6_counterexample :
    SENSITIVE_PARAMS.contains "-p" = true ∧
    (mask_sensitive_data
      { timestamp := "2024-01-01T00:00:00", command := "login",
        args := ["-p", "-p"], path := "/", user := "u",
        status := "success", risk_level := "LOW" }).args
      = ["-p", "[MASKED]"] ∧
    ("[MASKED]" : String) ≠ "-p" :=
  ⟨by rfl, by rfl, by decide⟩

/-- C6 amended: masking is idempotent — applying `_mask_sensitive_data`
to an already-masked record yields the same record — and a token is
replaced by the fixed marker exactly when it is in value position
(the `skip_next` state is set on reaching it, i.e. it immediately
follows a token that was recognised as a sensitive flag); every other
token, including each recognised sensitive-flag token, is preserved
unmasked, but a sensitive-flag token that itself occupies a value
position is masked rather than preserved. -/
theorem c6_amended_masking_idempotent :
    (∀ record : CommandRecord,
      mask_sensitive_data (mask_sensitive_data record)
        = mask_sensitive_data record) ∧
    (∀ l : List String,
      maskArgs false l =
        List.zipWith (fun b a => if b then "[MASKED]" else a)
          (maskStates false l) l) := by
  constructor
  · intro r
    unfold mask_sensitive_data
    simp [maskArgs_idem]
  · intro l
    exact maskArgs_eq_zipWith l false

/-- C10: `_mask_sensitive_data` changes only the `args` field — every
other field of the returned record equals the input's, the masked
argument list has the input's length, and every position whose
predecessor token is not a sensitive flag keeps its original value. -/
theorem c10_mask_changes_only_value_positions (record : CommandRecord) :
    (mask_sensitive_data record).timestamp = record.timestamp ∧
    (mask_sensitive_data record).command = record.command ∧
    (mask_sensitive_data record).path = record.path ∧
    (mask_sensitive_data record).user = record.user ∧
    (mask_sensitive_data record).status = record.status ∧
    (mask_sensitive_data record).risk_level = record.risk_level ∧
    (mask_sensitive_data record).duration = record.duration ∧
    (mask_sensitive_data record).error = record.error ∧
    (mask_sensitive_data record).args.length = record.args.length ∧
    (∀ i : Nat,
      (∀ (j : Nat) (x : String), j + 1 = i → record.args.get? j = some x →
        SENSITIVE_PARAMS.contains x = false) →
      (mask_sensitive_data record).args.get? i = record.args.get? i) := by
  refine ⟨rfl, rfl, rfl, rfl, rfl, rfl, rfl, rfl,
    maskArgs_length record.args false, ?_⟩
  intro i hi
  exact maskArgs_get?_preserved record.args false i (fun _ => rfl) hi

/-- Witness for C10 at a concrete record: position 1 follows the
non-sensitive token `-u` and is preserved. -/
theorem c10_witness :
    (mask_sensitive_data
      { timestamp := "t", command := "login", args := ["-u", "root"],
        path := "/", user := "u", status := "success",
        risk_level := "LOW" }).args.get? 1 = some "root" := by
  have h := c10_mask_changes_only_value_positions
    { timestamp := "t", command := "login", args := ["-u", "root"],
      path := "/", user := "u", status := "success", risk_level := "LOW" }
  have hpos := h.2.2.2.2.2.2.2.2.2 1 ?_
  · rw [hpos]
    rfl
  · intro j x hj hx
    have hj0 : j = 0 := by omega
    subst hj0
    simp only [List.get?_cons_zero, Option.some.injEq] at hx
    subst hx
    rfl

/-- On a well-formed log the history loop returns the first
`limit - n` parsed non-blank entries in file order, as long as fewer
than `limit` records have been collected so far. -/
theorem historyLoop_well_formed
    (parseLine : String → Except String CommandRecord) (limit : Nat) :
    ∀ (lines : List String) (n : Nat), n < limit →
      (∀ l ∈ lines, isBlankLine l = false → ∃ r, parseLine l = Except.ok r) →
      historyLoop parseLine limit lines n =
        Except.ok ((wellFormedEntries parseLine lines).take (limit - n)) := by
  intro lines
  induction lines with
  | nil => intro n _ _; simp [historyLoop, wellFormedEntries]
  | cons line rest ih =>
    intro n hn hwf
    have hwfrest : ∀ l ∈ rest, isBlankLine l = false →
        ∃ r, parseLine l = Except.ok r :=
      fun l hl => hwf l (List.mem_cons_of_mem _ hl)
    cases hb : isBlankLine line with
    | true =>
      have hnb : ¬ limit ≤ n := by omega
      rw [show historyLoop parseLine limit (line :: rest) n
          = historyLoop parseLine limit rest n by
        simp only [historyLoop]; simp [hb, hnb]]
      rw [ih n hn hwfrest]
      unfold wellFormedEntries
      simp [List.filterMap_cons, hb]
    | false =>
      obtain ⟨r, hr⟩ := hwf line (List.mem_cons_self _ _) hb
      have hent : wellFormedEntries parseLine (line :: rest)
          = r :: wellFormedEntries parseLine rest := by
        unfold wellFormedEntries
        simp [List.filterMap_cons, hb, hr, Except.toOption]
      by_cases hl : limit ≤ n + 1
      · have hlim : limit - n = 1 := by omega
        rw [show historyLoop parseLine limit (line :: rest) n
            = Except.ok [r] by simp only [historyLoop]; simp [hb, hr, hl]]
        rw [hent, hlim]
        simp
      · have hn1 : n + 1 < limit := by omega
        have hrec := ih (n + 1) hn1 hwfrest
        have hsub : limit - n = (limit - (n + 1)) + 1 := by omega
        rw [show historyLoop parseLine limit (line :: rest) n
            = match historyLoop parseLine limit rest (n + 1) with
              | Except.error e => Except.error e
              | Except.ok rs => Except.ok (r :: rs) by
          simp only [historyLoop]; simp [hb, hr, hl]]
        rw [hrec, hent, hsub]
        simp

/-- C7 fails as stated at `limit = 0`: the termination check runs only
after a record has been appended, so a log holding one entry returns one
record even though the limit is zero. -/
theorem c7_counterexample :
    get_command_history (fun _ => Except.ok sampleRecord)
      (some ["entry"]) 0 = Except.ok [sampleRecord] ∧
    ¬ ([sampleRecord].length ≤ 0) :=
  ⟨by rfl, by decide⟩

/-- C7 amended: for every stored well-formed log and every limit of at
least one, `get_command_history` returns the first `limit` parsed
non-blank entries of the file, in stored (oldest-first) order — hence at
most `limit` records; when the log file does not exist it returns the
empty sequence without raising.  (At `limit = 0` the first non-blank
entry, if any, is still returned.) -/
theorem c7_amended_history_bounded_and_ordered :
    (∀ (parseLine : String → Except String CommandRecord)
        (lines : List String) (limit : Nat), 1 ≤ limit →
      (∀ l ∈ lines, isBlankLine l = false → ∃ r, parseLine l = Except.ok r) →
      get_command_history parseLine (some lines) limit =
        Except.ok ((wellFormedEntries parseLine lines).take limit)) ∧
    (∀ (parseLine : String → Except String CommandRecord) (limit : Nat),
      get_command_history parseLine none limit = Except.ok []) := by
  constructor
  · intro parseLine lines limit h1 hwf
    show historyLoop parseLine limit lines 0 = _
    rw [historyLoop_well_formed parseLine limit lines 0 (by omega) hwf]
    simp
  · intro parseLine limit
    rfl

/-- Witness for the amended C7: a two-entry log read with limit 1
returns exactly the first entry, and a missing log reads as empty. -/
theorem c7_witness :
    get_command_history (fun _ => Except.ok sampleRecord)
      (some ["e1", "e2"]) 1 = Except.ok [sampleRecord] ∧
    get_command_history (fun _ => Except.ok sampleRecord) none 5
      = Except.ok [] := by
  constructor
  · have h := c7_amended_history_bounded_and_ordered.1
      (fun _ => Except.ok sampleRecord) ["e1", "e2"] 1 (by omega)
      (fun l _ _ => ⟨sampleRecord, rfl⟩)
    rw [h]
    rfl
  · exact c7_amended_history_bounded_and_ordered.2
      (fun _ => Except.ok sampleRecord) 5

/-- C8: a command string tokenizing into fewer than two tokens fails
with a parse error; with two or more tokens, the first token becomes the
command, the last token (canonicalised) becomes the path, and the tokens
in between, in order, become the arguments of any successfully parsed
command. -/
theorem c8_parse_token_decomposition
    (resolve : String → String) (isRelTo : String → String → Bool)
    (allowed_commands : List (String × PolicyEntry))
    (command_string : String) (parts : List String) :
    (parts.length < 2 →
      ∃ m, parse resolve isRelTo allowed_commands command_string
        (Except.ok parts) = ParseResult.parseError m) ∧
    (2 ≤ parts.length →
      ∀ pc, parse resolve isRelTo allowed_commands command_string
          (Except.ok parts) = ParseResult.ok pc →
        pc.command = parts.head! ∧ pc.args = (parts.drop 1).dropLast ∧
        pc.path = resolve parts.getLast!) := by
  constructor
  · intro hlt
    unfold parse
    by_cases hs : command_string = ""
    · exact ⟨"Invalid command format: empty command", by simp [hs]⟩
    · exact ⟨"Invalid command format: must include command and path",
        by simp [hs, hlt]⟩
  · intro hge pc hok
    unfold parse at hok
    by_cases hs : command_string = ""
    · simp [hs] at hok
    · have hnlt : ¬ parts.length < 2 := by omega
      simp only [hs, if_false, hnlt, if_neg] at hok
      cases hv : validate_command resolve isRelTo allowed_commands
          parts.head! ((parts.drop 1).dropLast)
          (resolve parts.getLast!) with
      | error e => rw [hv] at hok; exact ParseResult.noConfusion hok
      | ok b =>
        rw [hv] at hok
        cases hok
        exact ⟨rfl, rfl, rfl⟩

/-- Witness for C8: a one-token string is a parse error, and a
three-token string decomposes into command, argument and path. -/
theorem c8_witness :
    (∃ m, parse id (fun _ _ => true) [("ls", ⟨["-l"], ["/"]⟩)] "ls"
        (Except.ok ["ls"]) = ParseResult.parseError m) ∧
    ((ParsedCommand.mk "ls" ["-l"] "/").command
        = (["ls", "-l", "/"] : List String).head! ∧
     (ParsedCommand.mk "ls" ["-l"] "/").args
        = ((["ls", "-l", "/"] : List String).drop 1).dropLast ∧
     (ParsedCommand.mk "ls" ["-l"] "/").path
        = id (["ls", "-l", "/"] : List String).getLast!) :=
  ⟨(c8_parse_token_decomposition id (fun _ _ => true)
      [("ls", ⟨["-l"], ["/"]⟩)] "ls" ["ls"]).1 (by decide),
   (c8_parse_token_decomposition id (fun _ _ => true)
      [("ls", ⟨["-l"], ["/"]⟩)] "ls -l /" ["ls", "-l", "/"]).2
     (by decide) (ParsedCommand.mk "ls" ["-l"] "/") (by rfl)⟩

end MCPCommandServer
